import Mathlib

/-!
# Verification of the hierarchical notification fan-out engine

A shallow embedding, in Lean 4, of the core of the `notification-system`
repository (Python): the path utilities, the subscription index, the
matching/deduplication resolver, the notification materializer, the fan-out
dispatcher (`EventProcessor.process_event`), and the repository operations
the claims refer to (`SubscriptionRepository.delete`,
`NotificationRepository.mark_as_read`).

Python strings are modelled as Lean `String`s (a list of characters);
the Python string primitives used by the source (`startswith`, `endswith`,
`s[:-1]`, `split('/')`, `'/'.join`, `strip('/')`, `replace`, `title()`) are
given explicit executable models below.  SQL queries without an `ORDER BY`
are modelled as returning rows in store (insertion) order.  Asynchronous
I/O failures (a raised exception in `create_notification` or in the NATS
publish) are modelled by an explicit failure oracle, since the Python code
catches these exceptions per recipient.
-/

namespace NotifSys

/-! ## Python string primitives -/

/-- Python `s.startswith(pre)`. -/
def pyStartsWith (s pre : String) : Bool :=
  pre.data.isPrefixOf s.data

/-- Python `s.endswith(suf)`. -/
def pyEndsWith (s suf : String) : Bool :=
  suf.data.isSuffixOf s.data

/-- Python `s[:-1]` (drop the final character). -/
def pyDropLast (s : String) : String :=
  String.mk s.data.dropLast

/-- Python `len(s)`. -/
def pyLen (s : String) : Nat :=
  s.data.length

/-- Helper for Python `s.split(c)`: returns the first chunk (up to the first
separator) paired with the list of remaining chunks. -/
def splitCharAux (c : Char) : List Char → List Char × List (List Char)
  | [] => ([], [])
  | x :: xs =>
    let r := splitCharAux c xs
    if x = c then ([], r.1 :: r.2) else (x :: r.1, r.2)

/-- Python `s.split(c)` for a single-character separator: always returns
one more chunk than there are separators; empty chunks are kept
(`''.split('/') == ['']`, `'/'.split('/') == ['', '']`). -/
def splitChar (c : Char) (l : List Char) : List (List Char) :=
  (splitCharAux c l).1 :: (splitCharAux c l).2

/-- Python `c.join(parts)` for a single-character separator. -/
def joinChar (c : Char) : List (List Char) → List Char
  | [] => []
  | [p] => p
  | p :: q :: ps => p ++ c :: joinChar c (q :: ps)

/-- Python `s.split('/')`, at the `String` level. -/
def pySplitSlash (s : String) : List String :=
  (splitChar '/' s.data).map String.mk

/-- Python `'/'.join(parts)`, at the `String` level. -/
def pyJoinSlash (l : List String) : String :=
  String.mk (joinChar '/' (l.map String.data))

/-- Python `s.strip(c)` for a single strip character: remove every leading
and trailing occurrence of `c`. -/
def pyStrip (c : Char) (s : String) : String :=
  String.mk (((s.data.dropWhile (· = c)).reverse.dropWhile (· = c)).reverse)

/-- Python `s.replace(a, b)` for single-character `a`, `b`. -/
def pyReplaceChar (a b : Char) (s : String) : String :=
  String.mk (s.data.map (fun x => if x = a then b else x))

/-- One step of Python `s.title()`: the Boolean records whether the
previous character was alphabetic. -/
def pyTitleAux : Bool → List Char → List Char
  | _, [] => []
  | prevAlpha, x :: xs =>
    (if x.isAlpha then (if prevAlpha then x.toLower else x.toUpper) else x)
      :: pyTitleAux x.isAlpha xs

/-- Python `s.title()`: the first letter of each run of letters is
upper-cased, the rest lower-cased. -/
def pyTitle (s : String) : String :=
  String.mk (pyTitleAux false s.data)

/-! ## Path utilities (`EventProcessor`, `SubscriptionService`) -/

/-- The path normalization applied by `EventProcessor.process_event`
(line 41) to the incoming event path, and identically by
`SubscriptionService.create_subscription` / `check_subscription` to
subscription paths: add a leading `/` when missing.  (No other rewriting
is performed at these sites.) -/
def normalizePath (p : String) : String :=
  if pyStartsWith p "/" then p else "/" ++ p

/-- The trailing-slash strip performed inside `_get_parent_paths`
(line 129 of `event_processor.py`): `norm_path[:-1] if
norm_path.endswith('/') and len(norm_path) > 1 else norm_path`. -/
def stripTrailingSlash (p : String) : String :=
  if pyEndsWith p "/" = true ∧ 1 < pyLen p then pyDropLast p else p

/-- The `parts` local of `_get_parent_paths` (lines 128-131): the path
with a leading slash ensured and a trailing slash stripped, split on
`'/'`. -/
def parentParts (path : String) : List String :=
  pySplitSlash (stripTrailingSlash (normalizePath path))

/-- `EventProcessor._get_parent_paths` (and the identical
`SubscriptionService._get_parent_paths`): the ancestor enumeration, from
most specific to most general, translated clause by clause from the
Python source.  The loop `for i in range(len(parts) - 1, 0, -1)` is the
reversed `range'`. -/
def getParentPaths (path : String) : List String :=
  if path = "" ∨ path = "/" then []
  else
    (List.range' 1 ((parentParts path).length - 1)).reverse.map (fun i =>
      let pp := pyJoinSlash ((parentParts path).take i)
      if pp = "" then "/" else pp)

/-! ## Basic string-model lemmas -/

theorem mk_data (s : String) : String.mk s.data = s := rfl

theorem data_mk (l : List Char) : (String.mk l).data = l := rfl

theorem pyStartsWith_slash_append (p : String) :
    pyStartsWith ("/" ++ p) "/" = true := by
  simp [pyStartsWith, String.data_append, List.isPrefixOf]

theorem normalizePath_startsWith (p : String) :
    pyStartsWith (normalizePath p) "/" = true := by
  unfold normalizePath
  by_cases h : pyStartsWith p "/" = true
  · simp [h]
  · simp [h, pyStartsWith_slash_append]

/-- Claim C8 — confirmed.  The path normalization that the engine applies
to incoming event paths and subscription paths (add a leading slash when
missing) is idempotent: `normalize(normalize(p)) == normalize(p)`. -/
theorem normalizePath_idempotent (p : String) :
    normalizePath (normalizePath p) = normalizePath p := by
  have h := normalizePath_startsWith p
  unfold normalizePath
  simp [normalizePath] at h
  simp [h]

/-- A single-character suffix test looks only at the final character. -/
theorem isSuffixOf_singleton_getLast (a : Char) (l : List Char) :
    [a].isSuffixOf l = (l.getLast? == some a) := by
  unfold List.isSuffixOf
  cases hr : l.reverse with
  | nil =>
    have hl : l = [] := List.reverse_eq_nil_iff.mp hr
    subst hl
    simp [List.isPrefixOf]
  | cons x t =>
    have hlast : l.getLast? = some x := by
      rw [← List.head?_reverse, hr]; rfl
    rw [hlast]
    rcases eq_or_ne a x with rfl | hax
    · simp [List.isPrefixOf]
    · simp [List.isPrefixOf, hax, Ne.symm hax]

/-- The final characters of `'/' :: l` and of `l` agree when `l ≠ []`,
hence a single-character `endswith` test is preserved by prepending. -/
theorem isSuffixOf_singleton_cons (a c : Char) (l : List Char) (h : l ≠ []) :
    [a].isSuffixOf (c :: l) = [a].isSuffixOf l := by
  cases l with
  | nil => exact absurd rfl h
  | cons x t =>
    rw [isSuffixOf_singleton_getLast, isSuffixOf_singleton_getLast,
      List.getLast?_cons_cons]

/-- Claim C7 — counterexample.  On the input `"a/"` the normalization the
engine applies produces `"/a/"`, which is not `"/"` and still ends with a
trailing slash: the code adds a missing leading slash but never strips a
trailing one. -/
theorem normalizePath_trailing_slash_counterexample :
    normalizePath "a/" = "/a/" ∧
    pyEndsWith (normalizePath "a/") "/" = true ∧
    normalizePath "a/" ≠ "/" := by
  refine ⟨by decide, by decide, by decide⟩

/-- Claim C7 — amended.  For every input path, normalization produces a
path that starts with `/` (a missing leading slash is added), and for
every nonempty input the result ends with `/` exactly when the input
does: trailing slashes are not stripped. -/
theorem normalizePath_leading_slash_only (p : String) :
    pyStartsWith (normalizePath p) "/" = true ∧
    (p ≠ "" → pyEndsWith (normalizePath p) "/" = pyEndsWith p "/") := by
  refine ⟨normalizePath_startsWith p, fun hp => ?_⟩
  have hd : p.data ≠ [] := by
    intro hnil
    exact hp (by cases p with | mk d => cases hnil; rfl)
  unfold normalizePath
  by_cases h : pyStartsWith p "/" = true
  · rw [if_pos h]
  · rw [if_neg h]
    show ("/" : String).data.isSuffixOf ("/" ++ p).data = ("/" : String).data.isSuffixOf p.data
    rw [String.data_append]
    exact isSuffixOf_singleton_cons '/' '/' p.data hd

/-- Witness for the amended claim C7 at the concrete input `"a/"`. -/
theorem normalizePath_leading_slash_only_witness :
    pyStartsWith (normalizePath "a/") "/" = true ∧
    pyEndsWith (normalizePath "a/") "/" = pyEndsWith "a/" "/" :=
  ⟨(normalizePath_leading_slash_only "a/").1,
   (normalizePath_leading_slash_only "a/").2 (by decide)⟩

/-! ## Split/join lemmas for the ancestor enumeration -/

theorem data_ne_nil_of_ne_empty {s : String} (h : s ≠ "") : s.data ≠ [] := by
  intro hnil
  exact h (by cases s with | mk d => cases hnil; rfl)

theorem ne_empty_of_data_ne_nil {s : String} (h : s.data ≠ []) : s ≠ "" := by
  intro he
  subst he
  exact h rfl

theorem splitCharAux_no_sep (c : Char) (l : List Char) (h : c ∉ l) :
    splitCharAux c l = (l, []) := by
  induction l with
  | nil => rfl
  | cons x xs ih =>
    have hx : x ≠ c := fun hxc => h (hxc ▸ List.mem_cons_self x xs)
    have hxs : c ∉ xs := fun hm => h (List.mem_cons_of_mem x hm)
    simp [splitCharAux, ih hxs, hx]

theorem splitCharAux_append_sep (c : Char) (x rest : List Char) (hx : c ∉ x) :
    splitCharAux c (x ++ c :: rest)
      = (x, (splitCharAux c rest).1 :: (splitCharAux c rest).2) := by
  induction x with
  | nil => simp [splitCharAux]
  | cons y ys ih =>
    have hy : y ≠ c := fun hyc => hx (hyc ▸ List.mem_cons_self y ys)
    have hys : c ∉ ys := fun hm => hx (List.mem_cons_of_mem y hm)
    simp [splitCharAux, ih hys, hy]

theorem splitChar_sep_cons (c : Char) (l : List Char) :
    splitChar c (c :: l) = [] :: splitChar c l := by
  simp [splitChar, splitCharAux]

/-- Splitting undoes joining, for a nonempty list of separator-free chunks
(the exact shape produced by the path utilities). -/
theorem splitChar_joinChar (c : Char) (xss : List (List Char)) (hne : xss ≠ [])
    (h : ∀ xs ∈ xss, c ∉ xs) :
    splitChar c (joinChar c xss) = xss := by
  induction xss with
  | nil => exact absurd rfl hne
  | cons p ps ih =>
    cases ps with
    | nil =>
      have hp : c ∉ p := h p (List.mem_cons_self p [])
      simp [joinChar, splitChar, splitCharAux_no_sep c p hp]
    | cons q qs =>
      have hp : c ∉ p := h p (List.mem_cons_self p (q :: qs))
      have hrest : ∀ xs ∈ q :: qs, c ∉ xs :=
        fun xs hm => h xs (List.mem_cons_of_mem p hm)
      have hJ := ih (by simp) hrest
      show splitChar c (p ++ c :: joinChar c (q :: qs)) = p :: q :: qs
      have haux := splitCharAux_append_sep c p (joinChar c (q :: qs)) hp
      simp only [splitChar] at hJ ⊢
      rw [haux]
      simpa using hJ

theorem joinChar_ne_nil (c : Char) (xss : List (List Char)) (hne : xss ≠ [])
    (h : ∀ xs ∈ xss, xs ≠ []) : joinChar c xss ≠ [] := by
  cases xss with
  | nil => exact absurd rfl hne
  | cons p ps =>
    cases ps with
    | nil => exact h p (List.mem_cons_self p [])
    | cons q qs => simp [joinChar]

/-- The last character of a joined, nonempty, separator-free chunk list is
never the separator. -/
theorem joinChar_getLast_ne (c : Char) (xss : List (List Char)) (hne : xss ≠ [])
    (h : ∀ xs ∈ xss, xs ≠ [] ∧ c ∉ xs) :
    ∃ d, (joinChar c xss).getLast? = some d ∧ d ≠ c := by
  induction xss with
  | nil => exact absurd rfl hne
  | cons p ps ih =>
    cases ps with
    | nil =>
      obtain ⟨hp, hpc⟩ := h p (List.mem_cons_self p [])
      refine ⟨p.getLast hp, ?_, ?_⟩
      · show p.getLast? = some (p.getLast hp)
        exact List.getLast?_eq_getLast_of_ne_nil hp
      · exact fun hdc => hpc (hdc ▸ List.getLast_mem hp)
    | cons q qs =>
      have hrest : ∀ xs ∈ q :: qs, xs ≠ [] ∧ c ∉ xs :=
        fun xs hm => h xs (List.mem_cons_of_mem p hm)
      obtain ⟨d, hd, hdc⟩ := ih (by simp) hrest
      refine ⟨d, ?_, hdc⟩
      show (p ++ c :: joinChar c (q :: qs)).getLast? = some d
      have hJ : joinChar c (q :: qs) ≠ [] :=
        joinChar_ne_nil c (q :: qs) (by simp) (fun xs hm => (hrest xs hm).1)
      rw [List.getLast?_append_cons p c (joinChar c (q :: qs))]
      cases hJl : joinChar c (q :: qs) with
      | nil => exact absurd hJl hJ
      | cons e es =>
        rw [List.getLast?_cons_cons, ← hJl, hd]

theorem pyJoinSlash_cons_empty (t : List String) (h : t ≠ []) :
    pyJoinSlash ("" :: t) = "/" ++ pyJoinSlash t := by
  cases t with
  | nil => exact absurd rfl h
  | cons x xs =>
    show String.mk (joinChar '/' ([] :: x.data :: xs.map String.data))
      = "/" ++ String.mk (joinChar '/' (x.data :: xs.map String.data))
    rfl

/-- Steps a reversed `range'`-indexed map down by one: used to peel the
root sentinel off the end of the ancestor enumeration. -/
theorem range'_reverse_map_concat {α : Type} (f g : Nat → α) (r : α)
    (h1 : f 1 = r) (h2 : ∀ i, f (i + 2) = g (i + 1)) :
    ∀ k, (List.range' 1 (k + 1)).reverse.map f
      = (List.range' 1 k).reverse.map g ++ [r] := by
  intro k
  induction k with
  | zero => simp [h1]
  | succ k ihk =>
    have hconc : List.range' 1 (k + 2) = List.range' 1 (k + 1) ++ [k + 2] := by
      rw [List.range'_concat]
      congr 1
      congr 1
      omega
    have hconc' : List.range' 1 (k + 1) = List.range' 1 k ++ [k + 1] := by
      rw [List.range'_concat]
      congr 1
      congr 1
      omega
    calc (List.range' 1 (k + 2)).reverse.map f
        = f (k + 2) :: (List.range' 1 (k + 1)).reverse.map f := by
          rw [hconc, List.reverse_append]
          rfl
      _ = f (k + 2) :: ((List.range' 1 k).reverse.map g ++ [r]) := by
          rw [ihk]
      _ = (g (k + 1) :: (List.range' 1 k).reverse.map g) ++ [r] := by
          rw [h2 k]
          rfl
      _ = (List.range' 1 (k + 1)).reverse.map g ++ [r] := by
          rw [hconc', List.reverse_append]
          rfl

/-! ## Claim C3: the ancestor enumeration -/

/-- Claim C3 — counterexample.  For `"/a/b/c"` the ancestor enumeration of
the code returns three entries, keeping the root sentinel `"/"` as the
final element, not the two entries `["/a/b", "/a"]` the claim states. -/
theorem getParentPaths_counterexample :
    getParentPaths "/a/b/c" = ["/a/b", "/a", "/"] ∧
    getParentPaths "/a/b/c" ≠ ["/a/b", "/a"] := by
  refine ⟨by decide, by decide⟩

/-- Claim C3 — amended.  For every path `/s₁/…/sₙ` of depth `n ≥ 1` (each
segment nonempty and slash-free), the ancestor enumeration returns exactly
`n` entries: the `n-1` strict non-root ancestors ordered from most
specific (immediate parent) to least specific, followed by the root
sentinel `"/"` as the final element.  For the path `"/"` or the empty
string it returns an empty sequence. -/
theorem getParentPaths_ancestors (segs : List String) (hne : segs ≠ [])
    (hseg : ∀ s ∈ segs, s ≠ "" ∧ '/' ∉ s.data) :
    getParentPaths ("/" ++ pyJoinSlash segs)
      = (List.range' 1 (segs.length - 1)).reverse.map
          (fun k => "/" ++ pyJoinSlash (segs.take k)) ++ ["/"]
    ∧ (getParentPaths ("/" ++ pyJoinSlash segs)).length = segs.length
    ∧ getParentPaths "/" = [] ∧ getParentPaths "" = [] := by
  have hxss_ne : segs.map String.data ≠ [] := by
    simpa using hne
  have hxss : ∀ xs ∈ segs.map String.data, xs ≠ [] ∧ '/' ∉ xs := by
    intro xs hm
    obtain ⟨s, hs, rfl⟩ := List.mem_map.mp hm
    exact ⟨data_ne_nil_of_ne_empty (hseg s hs).1, (hseg s hs).2⟩
  have hJ_ne : joinChar '/' (segs.map String.data) ≠ [] :=
    joinChar_ne_nil '/' (segs.map String.data) hxss_ne (fun xs hm => (hxss xs hm).1)
  have hpdata : ("/" ++ pyJoinSlash segs).data
      = '/' :: joinChar '/' (segs.map String.data) := by
    rw [String.data_append]
    rfl
  have hp1 : ("/" ++ pyJoinSlash segs) ≠ "" := by
    apply ne_empty_of_data_ne_nil
    rw [hpdata]
    exact List.cons_ne_nil _ _
  have hp2 : ("/" ++ pyJoinSlash segs) ≠ "/" := by
    intro he
    have hj : ('/' :: joinChar '/' (segs.map String.data)) = ['/'] := by
      rw [← hpdata, he]
    exact hJ_ne (by injection hj)
  -- the trailing-slash strip is a no-op: the last character is a segment
  -- character, never '/'
  obtain ⟨d, hd, hdc⟩ :=
    joinChar_getLast_ne '/' (segs.map String.data) hxss_ne hxss
  have hends : pyEndsWith ("/" ++ pyJoinSlash segs) "/" = false := by
    show ("/" : String).data.isSuffixOf ("/" ++ pyJoinSlash segs).data = false
    rw [hpdata]
    show ['/'].isSuffixOf ('/' :: joinChar '/' (segs.map String.data)) = false
    rw [isSuffixOf_singleton_cons '/' '/' _ hJ_ne,
      isSuffixOf_singleton_getLast, hd]
    simp [hdc]
  have hstart : pyStartsWith ("/" ++ pyJoinSlash segs) "/" = true :=
    pyStartsWith_slash_append (pyJoinSlash segs)
  -- the `parts` local recovers the segments, with a leading empty chunk
  have hparts : parentParts ("/" ++ pyJoinSlash segs) = "" :: segs := by
    unfold parentParts stripTrailingSlash normalizePath
    rw [if_pos hstart, if_neg (by rw [hends]; simp)]
    show ((splitChar '/' ("/" ++ pyJoinSlash segs).data).map String.mk) = "" :: segs
    rw [hpdata, splitChar_sep_cons,
      splitChar_joinChar '/' (segs.map String.data) hxss_ne
        (fun xs hm => (hxss xs hm).2)]
    show "" :: (segs.map String.data).map String.mk = "" :: segs
    rw [List.map_map]
    have hid : (String.mk ∘ String.data) = fun s => s := by
      funext s
      exact mk_data s
    rw [hid, List.map_id']
  obtain ⟨m, hm⟩ : ∃ m, segs.length = m + 1 := by
    cases segs with
    | nil => exact absurd rfl hne
    | cons a t => exact ⟨t.length, rfl⟩
  have hmain : getParentPaths ("/" ++ pyJoinSlash segs)
      = (List.range' 1 (segs.length - 1)).reverse.map
          (fun k => "/" ++ pyJoinSlash (segs.take k)) ++ ["/"] := by
    unfold getParentPaths
    rw [if_neg (by push_neg; exact ⟨hp1, hp2⟩), hparts]
    have hlen : ("" :: segs).length - 1 = m + 1 := by
      simp [hm]
    rw [hlen, hm]
    have h1 : (fun i =>
        let pp := pyJoinSlash (("" :: segs).take i)
        if pp = "" then "/" else pp) 1 = "/" := by
      simp [pyJoinSlash, joinChar]
    have h2 : ∀ i, (fun i =>
        let pp := pyJoinSlash (("" :: segs).take i)
        if pp = "" then "/" else pp) (i + 2)
        = (fun k => "/" ++ pyJoinSlash (segs.take k)) (i + 1) := by
      intro i
      have htake : ("" :: segs).take (i + 2) = "" :: segs.take (i + 1) := by
        rfl
      have htk_ne : segs.take (i + 1) ≠ [] := by
        intro he
        rcases List.take_eq_nil_iff.mp he with h | h
        · exact Nat.succ_ne_zero i h
        · exact hne h
      show (if pyJoinSlash (("" :: segs).take (i + 2)) = "" then "/"
            else pyJoinSlash (("" :: segs).take (i + 2)))
          = "/" ++ pyJoinSlash (segs.take (i + 1))
      rw [htake, pyJoinSlash_cons_empty (segs.take (i + 1)) htk_ne]
      rw [if_neg]
      apply ne_empty_of_data_ne_nil
      rw [String.data_append]
      simp
    have hmap := range'_reverse_map_concat
      (fun i =>
        let pp := pyJoinSlash (("" :: segs).take i)
        if pp = "" then "/" else pp)
      (fun k => "/" ++ pyJoinSlash (segs.take k)) "/" h1 h2 m
    simpa [hm] using hmap
  refine ⟨hmain, ?_, by decide, by decide⟩
  rw [hmain]
  simp [hm]

/-- Witness for the amended claim C3 at the concrete segments
`["a", "b", "c"]`, i.e. the path `"/a/b/c"`. -/
theorem getParentPaths_ancestors_witness :
    getParentPaths ("/" ++ pyJoinSlash ["a", "b", "c"])
      = (List.range' 1 2).reverse.map
          (fun k => "/" ++ pyJoinSlash (["a", "b", "c"].take k)) ++ ["/"]
    ∧ (getParentPaths ("/" ++ pyJoinSlash ["a", "b", "c"])).length = 3
    ∧ getParentPaths "/" = [] ∧ getParentPaths "" = [] :=
  getParentPaths_ancestors ["a", "b", "c"] (by decide) (by decide)

/-! ## Data model (`models.py`) -/

/-- `NotificationSubscription` (models.py): one row of the
`notification_subscriptions` table.  `created_at` is a timestamp
(modelled as `Nat`); `notification_types` is a nullable JSON list;
`settings` is an opaque nullable JSON blob, never interpreted. -/
structure Subscription where
  id : String
  user_id : String
  path : String
  include_children : Bool
  created_at : Nat
  notification_types : Option (List String)
  settings : Option String
  deriving DecidableEq

/-- The decoded JSON body of an inbound NATS event message, with the
fields the engine reads: `payload.get("object_path")`,
`payload.get("event_type")`, `payload.get("data", {}).get("user_name")`,
`payload.get("data", {}).get("comment")`.  `system_event` models the
`{**payload, "system_event": True}` copy made for the audit
notification. -/
structure EventPayload where
  object_path : Option String
  event_type : Option String
  user_name : Option String
  comment : Option String
  system_event : Bool
  deriving DecidableEq

/-- The `extra_data` JSON bag stored on a notification by
`NotificationService.create_notification` (note: the source stores the
subscription id under the key `"subscription_path"`). -/
structure ExtraData where
  object_path : String
  subscription_path : Option String
  payload : EventPayload
  deriving DecidableEq

/-- `Notification` (models.py): one row of the `notifications` table. -/
structure Notification where
  id : String
  user_id : String
  type : String
  title : String
  content : String
  severity : String
  timestamp : Nat
  is_read : Bool
  object_path : String
  action_url : String
  subscription_id : Option String
  inherited : Bool
  extra_data : ExtraData
  deriving DecidableEq

/-- `EventType` (models.py): one row of the `event_types` configuration
table, mapping an event-type name to a nullable default severity. -/
structure EventTypeRow where
  id : String
  label : String
  default_severity_id : Option String
  is_active : Bool
  deriving DecidableEq

/-! ## Subscription index (`SubscriptionRepository.get_subscriptions_for_path`)

A `SELECT` without an `ORDER BY` is modelled as returning the rows in
store order. -/

/-- `SubscriptionRepository.get_subscriptions_for_path`: direct
subscriptions on the path, followed by subscriptions on a parent path
with `include_children == True` (the parent query is only issued when
`parent_paths` is nonempty). -/
def get_subscriptions_for_path (subs : List Subscription) (path : String)
    (parent_paths : List String) : List Subscription :=
  subs.filter (fun s => s.path == path)
    ++ (if parent_paths.isEmpty then []
        else subs.filter (fun s => parent_paths.contains s.path && s.include_children))

/-! ## Matching & deduplication resolver (`EventProcessor._get_subscribed_users`) -/

/-- The event-type filter of `_get_subscribed_users` (lines 110-112):
a candidate is skipped iff its `notification_types` is truthy (a
non-null, nonempty list) and does not contain the event type. -/
def typePasses (s : Subscription) (event_type : String) : Bool :=
  match s.notification_types with
  | none => true
  | some ts => ts.isEmpty || ts.contains event_type

/-- One iteration of the `for subscription in subscriptions` loop of
`_get_subscribed_users`: Python dict insert/update semantics are
modelled on an association list that keeps insertion order. -/
def resolveStep (path event_type : String)
    (subscribed_users : List (String × Subscription)) (s : Subscription) :
    List (String × Subscription) :=
  if typePasses s event_type = false then subscribed_users
  else if subscribed_users.any (fun p => p.1 == s.user_id) = false then
    subscribed_users ++ [(s.user_id, s)]
  else if s.path == path then
    subscribed_users.map (fun p => if p.1 == s.user_id then (s.user_id, s) else p)
  else subscribed_users

/-- The loop of `_get_subscribed_users` over an arbitrary candidate
list: the pure matching/deduplication resolver. -/
def resolve (candidates : List Subscription) (path event_type : String) :
    List (String × Subscription) :=
  candidates.foldl (resolveStep path event_type) []

/-- `EventProcessor._get_subscribed_users`: the resolver applied to the
candidate set fetched by the subscription index. -/
def get_subscribed_users (subs : List Subscription) (path : String)
    (parent_paths : List String) (event_type : String) :
    List (String × Subscription) :=
  resolve (get_subscriptions_for_path subs path parent_paths) path event_type

/-- Python `subscribed_users.get(u)`: the value stored under key `u`. -/
def lookupDict (m : List (String × Subscription)) (u : String) :
    Option Subscription :=
  (m.find? (fun p => p.1 == u)).map Prod.snd

/-- The subsequence of candidates that belong to user `u` and survive
the event-type filter, in candidate order. -/
def passingFor (candidates : List Subscription) (event_type u : String) :
    List Subscription :=
  candidates.filter (fun s => s.user_id == u && typePasses s event_type)

/-! ## Resolver lemmas -/

theorem any_eq_isSome_find? {α : Type} (p : α → Bool) (l : List α) :
    l.any p = (l.find? p).isSome := by
  induction l with
  | nil => rfl
  | cons x xs ih => cases hx : p x <;> simp [List.find?, hx, ih]

theorem find?_update_ne (m : List (String × Subscription)) (v u : String)
    (s : Subscription) (hvu : (v == u) = false) :
    (m.map (fun p => if p.1 == v then (v, s) else p)).find? (fun p => p.1 == u)
      = m.find? (fun p => p.1 == u) := by
  induction m with
  | nil => rfl
  | cons q qs ih =>
    by_cases hq : (q.1 == v) = true
    · have hq1 : q.1 = v := eq_of_beq hq
      have hqu : (q.1 == u) = false := by rw [hq1]; exact hvu
      rw [List.map_cons, if_pos hq,
        @List.find?_cons_of_neg _ (fun p => p.1 == u) (v, s) _ (by simp [hvu]),
        @List.find?_cons_of_neg _ (fun p => p.1 == u) q _ (by simp [hqu])]
      exact ih
    · rw [List.map_cons, if_neg hq]
      by_cases hu : (q.1 == u) = true
      · rw [@List.find?_cons_of_pos _ (fun p => p.1 == u) q _ hu,
          @List.find?_cons_of_pos _ (fun p => p.1 == u) q _ hu]
      · rw [@List.find?_cons_of_neg _ (fun p => p.1 == u) q _ hu,
          @List.find?_cons_of_neg _ (fun p => p.1 == u) q _ hu]
        exact ih

theorem find?_update_self (m : List (String × Subscription)) (v : String)
    (s : Subscription) (h : (m.find? (fun p => p.1 == v)).isSome = true) :
    (m.map (fun p => if p.1 == v then (v, s) else p)).find? (fun p => p.1 == v)
      = some (v, s) := by
  induction m with
  | nil => simp [List.find?] at h
  | cons q qs ih =>
    by_cases hq : (q.1 == v) = true
    · rw [List.map_cons, if_pos hq,
        @List.find?_cons_of_pos _ (fun p => p.1 == v) (v, s) _ (beq_self_eq_true v)]
    · rw [List.map_cons, if_neg hq,
        @List.find?_cons_of_neg _ (fun p => p.1 == v) q _ hq]
      rw [@List.find?_cons_of_neg _ (fun p => p.1 == v) q _ hq] at h
      exact ih h

/-- Every entry the resolver emits is keyed by its subscription's owner,
and its subscription is a candidate that passed the event-type filter. -/
theorem resolve_mem (candidates : List Subscription) (path event_type : String) :
    ∀ e ∈ resolve candidates path event_type,
      e.2 ∈ candidates ∧ e.2.user_id = e.1 ∧ typePasses e.2 event_type = true := by
  induction candidates using List.reverseRecOn with
  | nil => intro e he; simp [resolve] at he
  | append_singleton cs s ih =>
    intro e he
    rw [resolve, List.foldl_append, List.foldl_cons, List.foldl_nil] at he
    have hres : List.foldl (resolveStep path event_type) [] cs
        = resolve cs path event_type := rfl
    rw [hres] at he
    unfold resolveStep at he
    by_cases hpass : typePasses s event_type = false
    · rw [if_pos hpass] at he
      obtain ⟨h1, h2, h3⟩ := ih e he
      exact ⟨List.mem_append_left _ h1, h2, h3⟩
    · rw [if_neg hpass] at he
      by_cases hany : ((resolve cs path event_type).any
          (fun p => p.1 == s.user_id)) = false
      · rw [if_pos hany] at he
        rcases List.mem_append.mp he with hm | hm
        · obtain ⟨h1, h2, h3⟩ := ih e hm
          exact ⟨List.mem_append_left _ h1, h2, h3⟩
        · have he' : e = (s.user_id, s) := by simpa using hm
          subst he'
          exact ⟨List.mem_append_right _ (by simp), rfl,
            by simpa using hpass⟩
      · rw [if_neg hany] at he
        by_cases hdir : (s.path == path) = true
        · rw [if_pos hdir] at he
          obtain ⟨q, hq, hqe⟩ := List.mem_map.mp he
          by_cases hqv : (q.1 == s.user_id) = true
          · rw [if_pos hqv] at hqe
            subst hqe
            exact ⟨List.mem_append_right _ (by simp), rfl,
              by simpa using hpass⟩
          · rw [if_neg hqv] at hqe
            subst hqe
            obtain ⟨h1, h2, h3⟩ := ih q hq
            exact ⟨List.mem_append_left _ h1, h2, h3⟩
        · rw [if_neg hdir] at he
          obtain ⟨h1, h2, h3⟩ := ih e he
          exact ⟨List.mem_append_left _ h1, h2, h3⟩

/-- The resolver's keys never repeat: the output is a genuine map from
users to winning subscriptions. -/
theorem resolve_keys_nodup (candidates : List Subscription)
    (path event_type : String) :
    ((resolve candidates path event_type).map Prod.fst).Nodup := by
  induction candidates using List.reverseRecOn with
  | nil => simp [resolve]
  | append_singleton cs s ih =>
    rw [resolve, List.foldl_append, List.foldl_cons, List.foldl_nil]
    have hres : List.foldl (resolveStep path event_type) [] cs
        = resolve cs path event_type := rfl
    rw [hres]
    unfold resolveStep
    by_cases hpass : typePasses s event_type = false
    · rw [if_pos hpass]; exact ih
    · rw [if_neg hpass]
      by_cases hany : ((resolve cs path event_type).any
          (fun p => p.1 == s.user_id)) = false
      · rw [if_pos hany]
        rw [List.map_append]
        refine List.nodup_append.mpr ⟨ih, by simp, ?_⟩
        intro k hk hk'
        have hk2 : k = s.user_id := by simpa using hk'
        subst hk2
        obtain ⟨q, hq, hq1⟩ := List.mem_map.mp hk
        have hqb : (q.1 == s.user_id) = true := by rw [hq1]; exact beq_self_eq_true _
        have hcontra : ((resolve cs path event_type).any
            (fun p => p.1 == s.user_id)) = true := by
          rw [List.any_eq_true]
          exact ⟨q, hq, hqb⟩
        rw [hany] at hcontra
        exact Bool.false_ne_true hcontra
      · rw [if_neg hany]
        by_cases hdir : (s.path == path) = true
        · rw [if_pos hdir]
          have hkeys : ((resolve cs path event_type).map
                (fun p => if p.1 == s.user_id then (s.user_id, s) else p)).map Prod.fst
              = (resolve cs path event_type).map Prod.fst := by
            rw [List.map_map]
            apply List.map_congr_left
            intro q hq
            by_cases hqv : (q.1 == s.user_id) = true
            · simp [Function.comp, hqv, eq_of_beq hqv]
            · simp [Function.comp, hqv]
          rw [hkeys]; exact ih
        · rw [if_neg hdir]; exact ih

/-- Full characterization of the resolver output for each user: when the
user has a direct passing candidate the winner is the **last** direct
passing candidate in candidate order; otherwise it is the **first**
passing candidate in candidate order.  (Creation timestamps are never
consulted.) -/
theorem resolve_lookup (path event_type : String)
    (candidates : List Subscription) (u : String) :
    lookupDict (resolve candidates path event_type) u
      = match ((passingFor candidates event_type u).filter
                (fun s => s.path == path)).getLast? with
        | some d => some d
        | none => (passingFor candidates event_type u).head? := by
  induction candidates using List.reverseRecOn with
  | nil => rfl
  | append_singleton cs s ih =>
    rw [resolve, List.foldl_append, List.foldl_cons, List.foldl_nil]
    have hres : List.foldl (resolveStep path event_type) [] cs
        = resolve cs path event_type := rfl
    rw [hres]
    unfold resolveStep
    by_cases hpass : typePasses s event_type = false
    · rw [if_pos hpass]
      have hP : passingFor (cs ++ [s]) event_type u
          = passingFor cs event_type u := by
        unfold passingFor
        rw [List.filter_append]
        simp [hpass]
      rw [hP]
      exact ih
    · rw [if_neg hpass]
      have hpass' : typePasses s event_type = true := by
        simpa using hpass
      by_cases huser : (s.user_id == u) = true
      · -- the new candidate belongs to the user in question
        have hu : s.user_id = u := eq_of_beq huser
        have hP : passingFor (cs ++ [s]) event_type u
            = passingFor cs event_type u ++ [s] := by
          unfold passingFor
          rw [List.filter_append]
          simp [huser, hpass']
        rw [hP]
        by_cases hany : ((resolve cs path event_type).any
            (fun p => p.1 == s.user_id)) = false
        · rw [if_pos hany]
          -- the user had no entry yet, so they had no passing candidate
          have hfindn : (resolve cs path event_type).find? (fun p => p.1 == u)
              = none := by
            rw [hu, any_eq_isSome_find?] at hany
            cases hf : (resolve cs path event_type).find? (fun p => p.1 == u) with
            | none => rfl
            | some q => rw [hf] at hany; simp at hany
          have hnone : lookupDict (resolve cs path event_type) u = none := by
            unfold lookupDict
            rw [hfindn]
            rfl
          have hPnil : passingFor cs event_type u = [] := by
            rw [ih] at hnone
            cases hD : ((passingFor cs event_type u).filter
                (fun s => s.path == path)).getLast? with
            | some d => rw [hD] at hnone; exact absurd hnone (by simp)
            | none =>
              rw [hD] at hnone
              simpa [List.head?_eq_none_iff] using hnone
          have hlook : lookupDict (resolve cs path event_type ++ [(s.user_id, s)]) u
              = some s := by
            unfold lookupDict
            rw [List.find?_append]
            unfold lookupDict at hnone
            have hfind : (resolve cs path event_type).find? (fun p => p.1 == u)
                = none := by
              cases hf : (resolve cs path event_type).find? (fun p => p.1 == u) with
              | none => rfl
              | some q => rw [hf] at hnone; exact absurd hnone (by simp)
            rw [hfind]
            simp [List.find?, huser]
          rw [hlook, hPnil]
          by_cases hdir : (s.path == path) = true
          · simp [hdir]
          · simp [hdir]
        · rw [if_neg hany]
          have hsome : ((resolve cs path event_type).find?
              (fun p => p.1 == u)).isSome = true := by
            rw [← hu, ← any_eq_isSome_find?]
            simpa using hany
          by_cases hdir : (s.path == path) = true
          · rw [if_pos hdir]
            have hlook : lookupDict ((resolve cs path event_type).map
                (fun p => if p.1 == s.user_id then (s.user_id, s) else p)) u
                = some s := by
              unfold lookupDict
              rw [hu]
              rw [find?_update_self _ u s hsome]
              rfl
            rw [hlook]
            have hD : ((passingFor cs event_type u ++ [s]).filter
                (fun t => t.path == path)).getLast? = some s := by
              rw [List.filter_append]
              simp [hdir]
            rw [hD]
          · rw [if_neg hdir]
            have hD : (passingFor cs event_type u ++ [s]).filter
                (fun t => t.path == path)
                = (passingFor cs event_type u).filter (fun t => t.path == path) := by
              rw [List.filter_append]
              simp [hdir]
            rw [hD]
            rw [ih]
            cases hDc : ((passingFor cs event_type u).filter
                (fun t => t.path == path)).getLast? with
            | some d => rfl
            | none =>
              -- no direct winner: the stored entry is the first passing
              -- candidate, which is unchanged by appending
              have hPne : passingFor cs event_type u ≠ [] := by
                intro hnil
                have := ih
                rw [hDc, hnil] at this
                unfold lookupDict at this
                rw [Option.isSome_iff_ne_none] at hsome
                apply hsome
                cases hf : (resolve cs path event_type).find? (fun p => p.1 == u) with
                | none => rfl
                | some q =>
                  rw [hf] at this
                  simp at this
              rw [List.head?_append_of_ne_nil _ hPne]
      · -- the new candidate belongs to a different user
        have hP : passingFor (cs ++ [s]) event_type u
            = passingFor cs event_type u := by
          unfold passingFor
          rw [List.filter_append]
          simp [huser]
        rw [hP]
        by_cases hany : ((resolve cs path event_type).any
            (fun p => p.1 == s.user_id)) = false
        · rw [if_pos hany]
          have hlook : lookupDict (resolve cs path event_type ++ [(s.user_id, s)]) u
              = lookupDict (resolve cs path event_type) u := by
            unfold lookupDict
            rw [List.find?_append]
            have hfind1 : ([(s.user_id, s)].find? (fun p => p.1 == u)) = none := by
              simp [List.find?, huser]
            rw [hfind1]
            simp
          rw [hlook]
          exact ih
        · rw [if_neg hany]
          by_cases hdir : (s.path == path) = true
          · rw [if_pos hdir]
            have hlook : lookupDict ((resolve cs path event_type).map
                (fun p => if p.1 == s.user_id then (s.user_id, s) else p)) u
                = lookupDict (resolve cs path event_type) u := by
              unfold lookupDict
              rw [find?_update_ne _ s.user_id u s (by simpa using huser)]
            rw [hlook]
            exact ih
          · rw [if_neg hdir]
            exact ih

/-! ## Claims C2 and C4 -/

/-- Claim C2 — counterexample.  A user holds two inherited candidates
(on `/a` and `/a/b`, both with `includeDescendants`) for an event at
`/a/b/c`; the one on `/a` was created earlier (`created_at = 1`) than
the one on `/a/b` (`created_at = 2`).  The resolver keeps the candidate
that comes first in candidate order — the older one — not "the most
recently created one": creation timestamps are never consulted. -/
theorem resolve_created_at_counterexample :
    lookupDict (resolve
        [⟨"s1", "u", "/a", true, 1, none, none⟩,
         ⟨"s2", "u", "/a/b", true, 2, none, none⟩] "/a/b/c" "created") "u"
      = some ⟨"s1", "u", "/a", true, 1, none, none⟩
    ∧ (⟨"s1", "u", "/a", true, 1, none, none⟩ : Subscription).created_at
        < (⟨"s2", "u", "/a/b", true, 2, none, none⟩ : Subscription).created_at
    ∧ (⟨"s1", "u", "/a", true, 1, none, none⟩ : Subscription)
        ≠ ⟨"s2", "u", "/a/b", true, 2, none, none⟩ := by
  refine ⟨by decide, by decide, by decide⟩

/-- Claim C2 — amended.  For every candidate set and event type the
resolver outputs at most one winning subscription per user; every winner
is a candidate of that user that passed the event-type filter; a user
holding a direct passing candidate (path equal to the event's normalized
path) always wins with a direct one; and ties are broken by candidate
order, not creation time: with a direct passing candidate present the
last direct one in candidate order wins, otherwise the first passing
candidate in candidate order wins. -/
theorem resolve_dedup_and_precedence (candidates : List Subscription)
    (path event_type : String) :
    ((resolve candidates path event_type).map Prod.fst).Nodup
    ∧ (∀ e ∈ resolve candidates path event_type,
        e.2 ∈ candidates ∧ e.2.user_id = e.1 ∧ typePasses e.2 event_type = true)
    ∧ (∀ u s d, d ∈ candidates → d.user_id = u →
        typePasses d event_type = true → d.path = path →
        lookupDict (resolve candidates path event_type) u = some s →
        s.path = path)
    ∧ (∀ u d, ((passingFor candidates event_type u).filter
          (fun t => t.path == path)).getLast? = some d →
        lookupDict (resolve candidates path event_type) u = some d)
    ∧ (∀ u, ((passingFor candidates event_type u).filter
          (fun t => t.path == path)) = [] →
        lookupDict (resolve candidates path event_type) u
          = (passingFor candidates event_type u).head?) := by
  refine ⟨resolve_keys_nodup candidates path event_type,
    resolve_mem candidates path event_type, ?_, ?_, ?_⟩
  · intro u s d hd hdu hdp hddir hlook
    have hdP : d ∈ passingFor candidates event_type u :=
      List.mem_filter.mpr ⟨hd, by simp [hdu, hdp]⟩
    have hdD : d ∈ (passingFor candidates event_type u).filter
        (fun t => t.path == path) :=
      List.mem_filter.mpr ⟨hdP, by simp [hddir]⟩
    have hDne : (passingFor candidates event_type u).filter
        (fun t => t.path == path) ≠ [] :=
      List.ne_nil_of_mem hdD
    have hgl := List.getLast?_eq_getLast_of_ne_nil hDne
    rw [resolve_lookup, hgl] at hlook
    have hsl : ((passingFor candidates event_type u).filter
        (fun t => t.path == path)).getLast hDne = s := by
      have h2 : some (((passingFor candidates event_type u).filter
          (fun t => t.path == path)).getLast hDne) = some s := hlook
      exact Option.some.inj h2
    have hmem := List.getLast_mem hDne
    rw [hsl] at hmem
    exact eq_of_beq (List.mem_filter.mp hmem).2
  · intro u d h
    rw [resolve_lookup, h]
  · intro u h
    rw [resolve_lookup, h]
    rfl

/-- Witness for the amended claim C2: a user subscribed (inherited) on
`/a` and (direct) on `/a/b`; for an event at `/a/b` the resolver yields
exactly the direct subscription on `/a/b`. -/
theorem resolve_dedup_and_precedence_witness :
    lookupDict (resolve
        [⟨"i1", "u", "/a", true, 1, none, none⟩,
         ⟨"d1", "u", "/a/b", false, 2, none, none⟩] "/a/b" "created") "u"
      = some ⟨"d1", "u", "/a/b", false, 2, none, none⟩ :=
  (resolve_dedup_and_precedence
      [⟨"i1", "u", "/a", true, 1, none, none⟩,
       ⟨"d1", "u", "/a/b", false, 2, none, none⟩] "/a/b" "created").2.2.2.1
    "u" ⟨"d1", "u", "/a/b", false, 2, none, none⟩ (by decide)

/-- Claim C4 — confirmed.  A candidate whose `notification_types` is a
non-null, nonempty list that does not contain the event type is dropped
by the resolver (it is never a winning subscription, and a user all of
whose candidates are dropped gets no entry at all, hence no
notification); a candidate whose `notification_types` is null or the
empty list passes the filter for every event type, and a user holding
any passing candidate receives a winner. -/
theorem resolve_type_filter (candidates : List Subscription)
    (path event_type : String) :
    (∀ s ts, s.notification_types = some ts → ts ≠ [] → event_type ∉ ts →
      ∀ e ∈ resolve candidates path event_type, e.2 ≠ s)
    ∧ (∀ u, (∀ s ∈ candidates, s.user_id = u →
          typePasses s event_type = false) →
        ∀ e ∈ resolve candidates path event_type, e.1 ≠ u)
    ∧ (∀ s, s.notification_types = none ∨ s.notification_types = some [] →
        typePasses s event_type = true)
    ∧ (∀ u, (∃ s ∈ candidates, s.user_id = u ∧ typePasses s event_type = true) →
        (lookupDict (resolve candidates path event_type) u).isSome = true) := by
  refine ⟨?_, ?_, ?_, ?_⟩
  · intro s ts hts htsne htsmem e he heq
    have hpass := (resolve_mem candidates path event_type e he).2.2
    rw [heq] at hpass
    simp [typePasses, hts] at hpass
    rcases hpass with h | h
    · exact htsne h
    · exact htsmem h
  · intro u hall e he heq
    obtain ⟨hmem, huser, hpass⟩ := resolve_mem candidates path event_type e he
    rw [heq] at huser
    rw [hall e.2 hmem huser] at hpass
    exact Bool.false_ne_true hpass
  · intro s h
    rcases h with h | h <;> simp [typePasses, h]
  · intro u h
    obtain ⟨s0, hs0mem, hs0u, hs0pass⟩ := h
    have hs0P : s0 ∈ passingFor candidates event_type u :=
      List.mem_filter.mpr ⟨hs0mem, by simp [hs0u, hs0pass]⟩
    have hPne : passingFor candidates event_type u ≠ [] :=
      List.ne_nil_of_mem hs0P
    rw [resolve_lookup]
    cases hD : ((passingFor candidates event_type u).filter
        (fun t => t.path == path)).getLast? with
    | some d => rfl
    | none =>
      show (passingFor candidates event_type u).head?.isSome = true
      obtain ⟨a, t, hat⟩ := List.exists_cons_of_ne_nil hPne
      rw [hat]
      rfl

/-- Witness for claim C4: the candidate restricted to `["created"]` is
dropped for an `"updated"` event, but the same user's unrestricted
(null-types) candidate still wins, so the lookup succeeds. -/
theorem resolve_type_filter_witness :
    (lookupDict (resolve
        [⟨"s1", "u", "/a", true, 1, some ["created"], none⟩,
         ⟨"s2", "u", "/a", true, 2, none, none⟩] "/a" "updated") "u").isSome
      = true :=
  (resolve_type_filter
      [⟨"s1", "u", "/a", true, 1, some ["created"], none⟩,
       ⟨"s2", "u", "/a", true, 2, none, none⟩] "/a" "updated").2.2.2
    "u" ⟨⟨"s2", "u", "/a", true, 2, none, none⟩, by decide, by decide, by decide⟩

/-! ## Notification materializer (`NotificationService`) -/

/-- `ConfigurationService.get_severity_for_event_type`: look up the
event-type row by id (`EventTypeRepository.get_by_id` filters on id
only); return its `default_severity_id` when that is truthy (non-null,
nonempty), else the `"info"` fallback. -/
def get_severity_for_event_type (event_types : List EventTypeRow)
    (event_type : String) : String :=
  match event_types.find? (fun r => r.id == event_type) with
  | some r =>
    match r.default_severity_id with
    | some sev => if sev = "" then "info" else sev
    | none => "info"
  | none => "info"

/-- The `object_display` computed by `_generate_title` /
`_generate_content`: last segment of `path.strip('/')`, hyphens and
underscores replaced by spaces, title-cased.  (Python's
`parts[-1] if parts else "item"`: `str.split` never returns an empty
list, so the `"item"` default is unreachable; `getD` models it.) -/
def objectDisplay (path : String) : String :=
  pyTitle (pyReplaceChar '_' ' ' (pyReplaceChar '-' ' '
    (((pySplitSlash (pyStrip '/' path)).getLast?).getD "item")))

/-- `NotificationService._generate_title`. -/
def generate_title (path event_type : String) : String :=
  if event_type = "created" then "New " ++ objectDisplay path ++ " created"
  else if event_type = "updated" then objectDisplay path ++ " was updated"
  else if event_type = "deleted" then objectDisplay path ++ " was deleted"
  else if event_type = "commented" then "New comment on " ++ objectDisplay path
  else pyTitle (pyReplaceChar '_' ' ' event_type) ++ " on " ++ objectDisplay path

/-- `NotificationService._generate_content`. -/
def generate_content (path event_type : String) (payload : EventPayload) : String :=
  if event_type = "created" then
    payload.user_name.getD "Someone" ++ " created a new " ++ objectDisplay path
  else if event_type = "updated" then
    payload.user_name.getD "Someone" ++ " updated " ++ objectDisplay path
  else if event_type = "deleted" then
    payload.user_name.getD "Someone" ++ " deleted " ++ objectDisplay path
  else if event_type = "commented" then
    payload.user_name.getD "Someone" ++ " commented on " ++ objectDisplay path
      ++ ": \"" ++ payload.comment.getD "" ++ "\""
  else
    payload.user_name.getD "Someone" ++ " performed "
      ++ pyReplaceChar '_' ' ' event_type ++ " on " ++ objectDisplay path

/-- `NotificationService._generate_action_url`: prefix the path with the
fixed application route. -/
def generate_action_url (path : String) : String :=
  "/app" ++ path

/-- The state threaded through the dispatcher: the two database tables,
the event-type configuration table, the list of NATS messages published
to per-user channels, and a counter supplying the fresh notification ids
(`uuid.uuid4()`) and timestamps (`datetime.utcnow()`), both environment
values modelled as a monotone supply. -/
structure Store where
  subs : List Subscription
  notifs : List Notification
  event_types : List EventTypeRow
  pushes : List (String × Notification)
  counter : Nat

/-- The fresh id supply standing in for `str(uuid.uuid4())`. -/
def freshId (n : Nat) : String :=
  "uuid-" ++ toString n

/-- `NotificationService.create_notification` followed by
`NotificationRepository.create`: builds the notification row and appends
it to the store. -/
def create_notification (st : Store) (user_id event_type object_path : String)
    (payload : EventPayload) (subscription_id : Option String)
    (inherited : Bool) : Notification × Store :=
  let n : Notification :=
    { id := freshId st.counter
      user_id := user_id
      type := event_type
      title := generate_title object_path event_type
      content := generate_content object_path event_type payload
      severity := get_severity_for_event_type st.event_types event_type
      timestamp := st.counter
      is_read := false
      object_path := object_path
      action_url := generate_action_url object_path
      subscription_id := subscription_id
      inherited := inherited
      extra_data :=
        { object_path := object_path
          subscription_path := subscription_id
          payload := payload } }
  (n, { st with notifs := st.notifs ++ [n], counter := st.counter + 1 })

/-! ## Fan-out dispatcher (`EventProcessor.process_event`)

The Python code wraps each per-user persistence + publish in its own
`try/except`, and the system-audit creation in another; an exception
there is logged and swallowed.  The oracle below models which of those
awaited operations raise. -/

/-- Which awaited operations raise: `createFails u` models
`create_notification` raising for recipient `u` (nothing is persisted),
`pushFails u` models `nc.publish` raising for recipient `u` (the
notification is already persisted, the push is lost). -/
structure FailureModel where
  createFails : String → Bool
  pushFails : String → Bool

/-- The no-failure oracle. -/
def noFailures : FailureModel :=
  { createFails := fun _ => false, pushFails := fun _ => false }

/-- The body of the `for user_id, subscription in subscribed_users.items()`
loop of `process_event` (lines 56-74), for one recipient. -/
def processRecipient (fm : FailureModel) (event_type normalized_path : String)
    (payload : EventPayload) (st : Store) (w : String × Subscription) : Store :=
  if fm.createFails w.1 then st
  else
    let r := create_notification st w.1 event_type normalized_path payload
      (some w.2.id) (w.2.path != normalized_path)
    if fm.pushFails w.1 then r.2
    else { r.2 with
      pushes := r.2.pushes ++ [("notification.user." ++ w.1, r.1)] }

/-- `EventProcessor.process_event`: decode guard, path normalization,
matching, per-recipient materialization and push, then the unconditional
system-audit notification (`user_id="system"`, no subscription
reference, `inherited` left at its default `False`, payload tagged with
`system_event`).  The outer `try/except` makes the dispatcher total. -/
def process_event (fm : FailureModel) (payload : EventPayload) (st : Store) : Store :=
  match payload.object_path, payload.event_type with
  | some object_path, some event_type =>
    if object_path = "" ∨ event_type = "" then st
    else
      let normalized_path := normalizePath object_path
      let st1 := (get_subscribed_users st.subs normalized_path
          (getParentPaths normalized_path) event_type).foldl
        (processRecipient fm event_type normalized_path payload) st
      if fm.createFails "system" then st1
      else (create_notification st1 "system" event_type normalized_path
        { payload with system_event := true } none false).2
  | _, _ => st

/-! ## Repository operations under verification -/

namespace SubscriptionRepository

/-- `SubscriptionRepository.delete`: first `UPDATE notifications SET
subscription_id = NULL WHERE subscription_id = :id`, then delete the
subscription row itself. -/
def delete (st : Store) (sub : Subscription) : Store :=
  { st with
    notifs := st.notifs.map (fun n =>
      if n.subscription_id == some sub.id
      then { n with subscription_id := none } else n)
    subs := st.subs.filter (fun s => !(s.id == sub.id)) }

end SubscriptionRepository

namespace NotificationRepository

/-- `NotificationRepository.get_by_id`: the notification with the given
id belonging to the given user (ids are primary keys, so `find?` models
`scalar_one_or_none`). -/
def get_by_id (notifs : List Notification) (notification_id user_id : String) :
    Option Notification :=
  notifs.find? (fun n => n.id == notification_id && n.user_id == user_id)

/-- `NotificationRepository.mark_as_read`: fetch by (id, user); when
found set `is_read = True` and report `True`, else change nothing and
report `False`. -/
def mark_as_read (notifs : List Notification) (notification_id user_id : String) :
    List Notification × Bool :=
  match get_by_id notifs notification_id user_id with
  | some _ =>
    (notifs.map (fun n =>
      if n.id == notification_id && n.user_id == user_id
      then { n with is_read := true } else n), true)
  | none => (notifs, false)

end NotificationRepository

/-! ## Dispatcher lemmas -/

theorem processRecipient_notifs (fm : FailureModel)
    (et np : String) (payload : EventPayload) (st : Store)
    (w : String × Subscription) (h : fm.createFails w.1 = false) :
    (processRecipient fm et np payload st w).notifs
      = st.notifs
        ++ [(create_notification st w.1 et np payload (some w.2.id)
              (w.2.path != np)).1]
    ∧ (processRecipient fm et np payload st w).subs = st.subs
    ∧ (processRecipient fm et np payload st w).event_types = st.event_types := by
  unfold processRecipient
  rw [if_neg (by simp [h])]
  by_cases hp : fm.pushFails w.1 = true
  · rw [if_pos hp]
    exact ⟨rfl, rfl, rfl⟩
  · rw [if_neg hp]
    exact ⟨rfl, rfl, rfl⟩

/-- The per-recipient loop appends exactly one notification per
recipient whose creation does not raise, in loop order, keyed by the
recipient's user id; failures are isolated to their own recipient. -/
theorem processRecipients_notifs (fm : FailureModel)
    (et np : String) (payload : EventPayload) :
    ∀ (ws : List (String × Subscription)) (st : Store),
      ∃ ns : List Notification,
        (ws.foldl (processRecipient fm et np payload) st).notifs
          = st.notifs ++ ns
        ∧ ns.map Notification.user_id
            = (ws.filter (fun w => !(fm.createFails w.1))).map Prod.fst
        ∧ (ws.foldl (processRecipient fm et np payload) st).subs = st.subs
        ∧ (ws.foldl (processRecipient fm et np payload) st).event_types
            = st.event_types := by
  intro ws
  induction ws with
  | nil =>
    intro st
    exact ⟨[], by simp, by simp, rfl, rfl⟩
  | cons w ws ih =>
    intro st
    rw [List.foldl_cons]
    by_cases hc : fm.createFails w.1 = true
    · have hstep : processRecipient fm et np payload st w = st := by
        unfold processRecipient
        rw [if_pos hc]
      rw [hstep]
      obtain ⟨ns, h1, h2, h3, h4⟩ := ih st
      refine ⟨ns, h1, ?_, h3, h4⟩
      rw [List.filter_cons]
      simp only [hc, Bool.not_true, Bool.false_eq_true, if_false]
      exact h2
    · have hcf : fm.createFails w.1 = false := by simpa using hc
      obtain ⟨hn, hs, hev⟩ := processRecipient_notifs fm et np payload st w hcf
      obtain ⟨ns, h1, h2, h3, h4⟩ := ih (processRecipient fm et np payload st w)
      refine ⟨(create_notification st w.1 et np payload (some w.2.id)
          (w.2.path != np)).1 :: ns, ?_, ?_, ?_, ?_⟩
      · rw [h1, hn, List.append_assoc]
        rfl
      · rw [List.map_cons, h2, List.filter_cons]
        have hhead : (create_notification st w.1 et np payload (some w.2.id)
            (w.2.path != np)).1.user_id = w.1 := rfl
        rw [hhead]
        simp only [hcf, Bool.not_false, if_true, List.map_cons]
      · rw [h3, hs]
      · rw [h4, hev]

/-! ## Claims C1, C5 and C6 -/

/-- Claim C1 — confirmed.  For every event with a valid (present,
nonempty) object path and event type, and no I/O failures, processing
the event appends exactly one notification per matched user — in
resolver order — plus exactly one final system-audit notification for
the reserved recipient `"system"`, carrying no subscription reference
and `inherited = false`, regardless of the number of matches (including
zero). -/
theorem process_event_fanout (st : Store) (op et : String)
    (user_name comment : Option String) (sysflag : Bool)
    (hop : op ≠ "") (het : et ≠ "") :
    (process_event noFailures ⟨some op, some et, user_name, comment, sysflag⟩
        st).notifs.length
      = st.notifs.length
        + (get_subscribed_users st.subs (normalizePath op)
            (getParentPaths (normalizePath op)) et).length + 1
    ∧ ((process_event noFailures ⟨some op, some et, user_name, comment, sysflag⟩
        st).notifs.drop st.notifs.length).map Notification.user_id
      = (get_subscribed_users st.subs (normalizePath op)
          (getParentPaths (normalizePath op)) et).map Prod.fst ++ ["system"]
    ∧ ∃ sysn,
        (process_event noFailures ⟨some op, some et, user_name, comment, sysflag⟩
          st).notifs.getLast? = some sysn
        ∧ sysn.user_id = "system"
        ∧ sysn.subscription_id = none
        ∧ sysn.inherited = false := by
  have hguard : ¬(op = "" ∨ et = "") := by
    push_neg
    exact ⟨hop, het⟩
  obtain ⟨ns, h1, h2, h3, h4⟩ := processRecipients_notifs noFailures et
    (normalizePath op) ⟨some op, some et, user_name, comment, sysflag⟩
    (get_subscribed_users st.subs (normalizePath op)
      (getParentPaths (normalizePath op)) et) st
  have h2' : ns.map Notification.user_id
      = (get_subscribed_users st.subs (normalizePath op)
          (getParentPaths (normalizePath op)) et).map Prod.fst := by
    rw [h2]
    congr 1
    apply List.filter_eq_self.mpr
    intro w _
    rfl
  have hlen : ns.length
      = (get_subscribed_users st.subs (normalizePath op)
          (getParentPaths (normalizePath op)) et).length := by
    have := congrArg List.length h2'
    simpa using this
  have hev : process_event noFailures
      ⟨some op, some et, user_name, comment, sysflag⟩ st
      = (create_notification
          ((get_subscribed_users st.subs (normalizePath op)
            (getParentPaths (normalizePath op)) et).foldl
            (processRecipient noFailures et (normalizePath op)
              ⟨some op, some et, user_name, comment, sysflag⟩) st)
          "system" et (normalizePath op)
          ⟨some op, some et, user_name, comment, true⟩ none false).2 := by
    show (if (op = "" ∨ et = "") then st else _) = _
    rw [if_neg hguard]
    show (if noFailures.createFails "system" = true then _ else _) = _
    rw [if_neg (by simp [noFailures])]
  set st1 := (get_subscribed_users st.subs (normalizePath op)
      (getParentPaths (normalizePath op)) et).foldl
      (processRecipient noFailures et (normalizePath op)
        ⟨some op, some et, user_name, comment, sysflag⟩) st with hst1
  have hsys : (process_event noFailures
      ⟨some op, some et, user_name, comment, sysflag⟩ st).notifs
      = st.notifs ++ ns
        ++ [(create_notification st1 "system" et (normalizePath op)
              ⟨some op, some et, user_name, comment, true⟩ none false).1] := by
    rw [hev]
    show st1.notifs ++ _ = _
    rw [h1]
    rfl
  refine ⟨?_, ?_, ?_⟩
  · rw [hsys]
    simp only [List.length_append, List.length_cons, List.length_nil, hlen]
  · rw [hsys, List.append_assoc, List.drop_left, List.map_append, h2']
    rfl
  · refine ⟨(create_notification st1 "system" et (normalizePath op)
        ⟨some op, some et, user_name, comment, true⟩ none false).1,
      ?_, rfl, rfl, rfl⟩
    rw [hsys, List.append_assoc, List.getLast?_append_of_ne_nil _ (by simp),
      List.getLast?_append_of_ne_nil _ (by simp)]
    rfl

/-- Witness for claim C1 at a concrete event on `"/x"` against an empty
subscription store: zero matches still produce exactly the system-audit
notification. -/
theorem process_event_fanout_witness :
    (process_event noFailures ⟨some "/x", some "created", none, none, false⟩
        ⟨[], [], [], [], 0⟩).notifs.map Notification.user_id = ["system"] := by
  have h := process_event_fanout ⟨[], [], [], [], 0⟩ "/x" "created" none none
    false (by decide) (by decide)
  have hwin : get_subscribed_users ([] : List Subscription)
      (normalizePath "/x") (getParentPaths (normalizePath "/x")) "created"
      = [] := by decide
  have h2 := h.2.1
  rw [hwin] at h2
  simpa using h2

/-- Claim C5 — confirmed.  Per-recipient failures are isolated: for any
failure oracle, the event's notifications decompose into one block with
exactly one notification per matched user whose creation did not raise
(a raise for one user never removes another user's notification) and a
final system-audit block that is present iff the system creation itself
did not raise. -/
theorem process_event_error_isolation (fm : FailureModel) (st : Store)
    (op et : String) (user_name comment : Option String) (sysflag : Bool)
    (hop : op ≠ "") (het : et ≠ "") :
    ∃ ns sys : List Notification,
      (process_event fm ⟨some op, some et, user_name, comment, sysflag⟩
          st).notifs
        = st.notifs ++ ns ++ sys
      ∧ ns.map Notification.user_id
          = ((get_subscribed_users st.subs (normalizePath op)
              (getParentPaths (normalizePath op)) et).filter
              (fun w => !(fm.createFails w.1))).map Prod.fst
      ∧ sys.map Notification.user_id
          = (if fm.createFails "system" then [] else ["system"]) := by
  have hguard : ¬(op = "" ∨ et = "") := by
    push_neg
    exact ⟨hop, het⟩
  obtain ⟨ns, h1, h2, h3, h4⟩ := processRecipients_notifs fm et
    (normalizePath op) ⟨some op, some et, user_name, comment, sysflag⟩
    (get_subscribed_users st.subs (normalizePath op)
      (getParentPaths (normalizePath op)) et) st
  set st1 := (get_subscribed_users st.subs (normalizePath op)
      (getParentPaths (normalizePath op)) et).foldl
      (processRecipient fm et (normalizePath op)
        ⟨some op, some et, user_name, comment, sysflag⟩) st with hst1
  by_cases hsf : fm.createFails "system" = true
  · refine ⟨ns, [], ?_, h2, by simp [hsf]⟩
    have hev : process_event fm
        ⟨some op, some et, user_name, comment, sysflag⟩ st = st1 := by
      show (if (op = "" ∨ et = "") then st else _) = _
      rw [if_neg hguard]
      show (if fm.createFails "system" = true then st1 else _) = st1
      rw [if_pos hsf]
    rw [hev]
    show st1.notifs = _
    rw [h1, List.append_nil]
  · refine ⟨ns, [(create_notification st1 "system" et (normalizePath op)
        ⟨some op, some et, user_name, comment, true⟩ none false).1],
      ?_, h2, by rw [if_neg hsf]; rfl⟩
    have hev : process_event fm
        ⟨some op, some et, user_name, comment, sysflag⟩ st
        = (create_notification st1 "system" et (normalizePath op)
            ⟨some op, some et, user_name, comment, true⟩ none false).2 := by
      show (if (op = "" ∨ et = "") then st else _) = _
      rw [if_neg hguard]
      show (if fm.createFails "system" = true then st1 else _) = _
      rw [if_neg hsf]
    rw [hev]
    show st1.notifs ++ _ = _
    rw [h1]
    rfl

/-- Witness for claim C5: user `"a"`'s creation raises, yet user `"b"`
and the system recipient still get their notifications. -/
theorem process_event_error_isolation_witness :
    (process_event ⟨fun u => u == "a", fun _ => false⟩
        ⟨some "/x", some "created", none, none, false⟩
        ⟨[⟨"sA", "a", "/x", true, 0, none, none⟩,
          ⟨"sB", "b", "/x", true, 1, none, none⟩], [], [], [], 0⟩).notifs.map
      Notification.user_id = ["b", "system"] := by
  obtain ⟨ns, sys, h1, h2, h3⟩ := process_event_error_isolation
    ⟨fun u => u == "a", fun _ => false⟩
    ⟨[⟨"sA", "a", "/x", true, 0, none, none⟩,
      ⟨"sB", "b", "/x", true, 1, none, none⟩], [], [], [], 0⟩
    "/x" "created" none none false (by decide) (by decide)
  have h2' : ns.map Notification.user_id = ["b"] := by
    rw [h2]
    decide
  have h3' : sys.map Notification.user_id = ["system"] := by
    rw [h3]
    decide
  rw [h1, List.map_append, List.map_append, h2', h3']
  rfl

/-- Claim C6 — confirmed.  A decoded event payload missing the object
path or the event type is dropped: the store is left entirely unchanged
(no per-user notification, no system-audit notification, no push), and
the dispatcher, being a total function whose body is wrapped in the
outer `try/except`, raises nothing to its caller. -/
theorem process_event_drops_malformed (fm : FailureModel) (st : Store)
    (payload : EventPayload)
    (h : payload.object_path = none ∨ payload.event_type = none) :
    process_event fm payload st = st := by
  obtain ⟨opq, etq, un, cm, se⟩ := payload
  rcases h with h | h
  · have h' : opq = none := h
    subst h'
    cases etq <;> rfl
  · have h' : etq = none := h
    subst h'
    cases opq <;> rfl

/-- Witness for claim C6: a payload without an object path leaves a
concrete store untouched. -/
theorem process_event_drops_malformed_witness :
    process_event noFailures ⟨none, some "created", none, none, false⟩
        ⟨[⟨"sA", "a", "/x", true, 0, none, none⟩], [], [], [], 0⟩
      = ⟨[⟨"sA", "a", "/x", true, 0, none, none⟩], [], [], [], 0⟩ :=
  process_event_drops_malformed noFailures
    ⟨[⟨"sA", "a", "/x", true, 0, none, none⟩], [], [], [], 0⟩
    ⟨none, some "created", none, none, false⟩ (Or.inl rfl)

/-! ## Claims C9 and C10 -/

/-- Claim C9 — confirmed.  Deleting a subscription never deletes a
notification: the notification table keeps exactly the same rows in the
same positions, each row equal to its old value except that a
subscription reference equal to the deleted subscription's id is set to
null; every other field — and every non-referencing row entirely — is
unchanged. -/
theorem delete_preserves_notifications (st : Store) (sub : Subscription) :
    (SubscriptionRepository.delete st sub).notifs.length = st.notifs.length
    ∧ ∀ i (h : i < st.notifs.length),
        ∃ h' : i < (SubscriptionRepository.delete st sub).notifs.length,
          (SubscriptionRepository.delete st sub).notifs.get ⟨i, h'⟩
            = { st.notifs.get ⟨i, h⟩ with
                subscription_id :=
                  if (st.notifs.get ⟨i, h⟩).subscription_id = some sub.id
                  then none
                  else (st.notifs.get ⟨i, h⟩).subscription_id } := by
  have hlen : (SubscriptionRepository.delete st sub).notifs.length
      = st.notifs.length := by
    show (st.notifs.map _).length = _
    rw [List.length_map]
  refine ⟨hlen, ?_⟩
  intro i h
  refine ⟨by rw [hlen]; exact h, ?_⟩
  have hget : (SubscriptionRepository.delete st sub).notifs.get
      ⟨i, by rw [hlen]; exact h⟩
      = (fun n => if n.subscription_id == some sub.id
          then { n with subscription_id := none } else n)
        (st.notifs.get ⟨i, h⟩) := by
    show (st.notifs.map _).get _ = _
    simp [List.get_eq_getElem, List.getElem_map]
  rw [hget]
  dsimp only
  by_cases hid : ((st.notifs.get ⟨i, h⟩).subscription_id == some sub.id) = true
  · rw [if_pos hid, if_pos (eq_of_beq hid)]
  · rw [if_neg hid, if_neg (fun he => hid (by rw [he]; exact beq_self_eq_true _))]

/-- Witness for claim C9: deleting subscription `"s1"` keeps both stored
notifications; the one that referenced `"s1"` keeps its identity with
the reference nulled, the one referencing `"zz"` is untouched. -/
theorem delete_preserves_notifications_witness :
    (SubscriptionRepository.delete
        ⟨[⟨"s1", "u", "/a", true, 0, none, none⟩],
         [⟨"n1", "u", "created", "t", "c", "info", 0, false, "/a", "/app/a",
            some "s1", false, ⟨"/a", some "s1", ⟨some "/a", some "created",
              none, none, false⟩⟩⟩,
          ⟨"n2", "v", "created", "t", "c", "info", 1, false, "/a", "/app/a",
            some "zz", false, ⟨"/a", some "zz", ⟨some "/a", some "created",
              none, none, false⟩⟩⟩],
         [], [], 2⟩
        ⟨"s1", "u", "/a", true, 0, none, none⟩).notifs.length = 2
    ∧ ∃ h' : 0 < (SubscriptionRepository.delete
        ⟨[⟨"s1", "u", "/a", true, 0, none, none⟩],
         [⟨"n1", "u", "created", "t", "c", "info", 0, false, "/a", "/app/a",
            some "s1", false, ⟨"/a", some "s1", ⟨some "/a", some "created",
              none, none, false⟩⟩⟩,
          ⟨"n2", "v", "created", "t", "c", "info", 1, false, "/a", "/app/a",
            some "zz", false, ⟨"/a", some "zz", ⟨some "/a", some "created",
              none, none, false⟩⟩⟩],
         [], [], 2⟩
        ⟨"s1", "u", "/a", true, 0, none, none⟩).notifs.length,
        ((SubscriptionRepository.delete
          ⟨[⟨"s1", "u", "/a", true, 0, none, none⟩],
           [⟨"n1", "u", "created", "t", "c", "info", 0, false, "/a", "/app/a",
              some "s1", false, ⟨"/a", some "s1", ⟨some "/a", some "created",
                none, none, false⟩⟩⟩,
            ⟨"n2", "v", "created", "t", "c", "info", 1, false, "/a", "/app/a",
              some "zz", false, ⟨"/a", some "zz", ⟨some "/a", some "created",
                none, none, false⟩⟩⟩],
           [], [], 2⟩
          ⟨"s1", "u", "/a", true, 0, none, none⟩).notifs.get ⟨0, h'⟩).subscription_id
          = none := by
  obtain ⟨hlen, hall⟩ := delete_preserves_notifications
    ⟨[⟨"s1", "u", "/a", true, 0, none, none⟩],
     [⟨"n1", "u", "created", "t", "c", "info", 0, false, "/a", "/app/a",
        some "s1", false, ⟨"/a", some "s1", ⟨some "/a", some "created",
          none, none, false⟩⟩⟩,
      ⟨"n2", "v", "created", "t", "c", "info", 1, false, "/a", "/app/a",
        some "zz", false, ⟨"/a", some "zz", ⟨some "/a", some "created",
          none, none, false⟩⟩⟩],
     [], [], 2⟩
    ⟨"s1", "u", "/a", true, 0, none, none⟩
  obtain ⟨h', heq⟩ := hall 0 (by decide)
  refine ⟨by rw [hlen]; rfl, h', ?_⟩
  rw [heq]
  rfl

/-- Claim C10 — confirmed.  Mark-as-read returns true iff a notification
with the given id exists and belongs to the given user; on false nothing
changes at all; on true the store keeps the same rows in place and only
the row matching both the id and the user gets `is_read := true` — in
particular no other user's notification is ever modified. -/
theorem mark_as_read_spec (notifs : List Notification) (nid uid : String) :
    ((NotificationRepository.mark_as_read notifs nid uid).2 = true
      ↔ ∃ n ∈ notifs, n.id = nid ∧ n.user_id = uid)
    ∧ ((NotificationRepository.mark_as_read notifs nid uid).2 = false →
        (NotificationRepository.mark_as_read notifs nid uid).1 = notifs)
    ∧ (NotificationRepository.mark_as_read notifs nid uid).1.length
        = notifs.length
    ∧ ∀ i (h : i < notifs.length),
        ∃ h' : i < (NotificationRepository.mark_as_read notifs nid uid).1.length,
          (NotificationRepository.mark_as_read notifs nid uid).1.get ⟨i, h'⟩
            = (if (notifs.get ⟨i, h⟩).id = nid
                  ∧ (notifs.get ⟨i, h⟩).user_id = uid
               then { notifs.get ⟨i, h⟩ with is_read := true }
               else notifs.get ⟨i, h⟩) := by
  cases hf : NotificationRepository.get_by_id notifs nid uid with
  | none =>
    have hmark : NotificationRepository.mark_as_read notifs nid uid
        = (notifs, false) := by
      unfold NotificationRepository.mark_as_read
      rw [hf]
    rw [hmark]
    have hnone : ∀ n ∈ notifs, ¬(n.id = nid ∧ n.user_id = uid) := by
      intro n hn ⟨h1, h2⟩
      have := List.find?_eq_none.mp hf n hn
      simp [h1, h2] at this
    refine ⟨?_, fun _ => rfl, rfl, ?_⟩
    · constructor
      · intro hfalse
        exact absurd hfalse (by simp)
      · intro ⟨n, hn, h1, h2⟩
        exact absurd ⟨h1, h2⟩ (hnone n hn)
    · intro i h
      refine ⟨h, ?_⟩
      rw [if_neg (hnone (notifs.get ⟨i, h⟩) (notifs.get_mem _ _))]
  | some q =>
    have hmark : NotificationRepository.mark_as_read notifs nid uid
        = (notifs.map (fun n =>
            if n.id == nid && n.user_id == uid
            then { n with is_read := true } else n), true) := by
      unfold NotificationRepository.mark_as_read
      rw [hf]
    rw [hmark]
    have hq := List.find?_some hf
    have hqmem := List.mem_of_find?_eq_some hf
    refine ⟨?_, ?_, by rw [List.length_map], ?_⟩
    · constructor
      · intro _
        refine ⟨q, hqmem, ?_, ?_⟩
        · exact eq_of_beq (Bool.and_elim_left hq)
        · exact eq_of_beq (Bool.and_elim_right hq)
      · intro _
        rfl
    · intro hcontra
      exact absurd hcontra (by simp)
    · intro i h
      refine ⟨by rw [List.length_map]; exact h, ?_⟩
      have hget : (notifs.map (fun n =>
          if n.id == nid && n.user_id == uid
          then { n with is_read := true } else n)).get
          ⟨i, by rw [List.length_map]; exact h⟩
          = (fun n => if n.id == nid && n.user_id == uid
              then { n with is_read := true } else n)
            (notifs.get ⟨i, h⟩) := by
        simp [List.get_eq_getElem, List.getElem_map]
      rw [hget]
      dsimp only
      by_cases hb : ((notifs.get ⟨i, h⟩).id == nid
          && (notifs.get ⟨i, h⟩).user_id == uid) = true
      · rw [if_pos hb, if_pos ⟨eq_of_beq (Bool.and_elim_left hb),
          eq_of_beq (Bool.and_elim_right hb)⟩]
      · rw [if_neg hb, if_neg (fun hand => hb (by
          rw [hand.1, hand.2]
          simp))]

/-- Witness for claim C10: the owner can mark their notification
(returns true); another user cannot — the call returns false and leaves
the store unchanged. -/
theorem mark_as_read_spec_witness :
    (NotificationRepository.mark_as_read
        [⟨"n1", "u", "created", "t", "c", "info", 0, false, "/a", "/app/a",
          none, false, ⟨"/a", none, ⟨some "/a", some "created",
            none, none, false⟩⟩⟩] "n1" "u").2 = true
    ∧ (NotificationRepository.mark_as_read
        [⟨"n1", "u", "created", "t", "c", "info", 0, false, "/a", "/app/a",
          none, false, ⟨"/a", none, ⟨some "/a", some "created",
            none, none, false⟩⟩⟩] "n1" "v").2 = false
    ∧ (NotificationRepository.mark_as_read
        [⟨"n1", "u", "created", "t", "c", "info", 0, false, "/a", "/app/a",
          none, false, ⟨"/a", none, ⟨some "/a", some "created",
            none, none, false⟩⟩⟩] "n1" "v").1
      = [⟨"n1", "u", "created", "t", "c", "info", 0, false, "/a", "/app/a",
          none, false, ⟨"/a", none, ⟨some "/a", some "created",
            none, none, false⟩⟩⟩] := by
  refine ⟨?_, by decide, ?_⟩
  · exact (mark_as_read_spec
      [⟨"n1", "u", "created", "t", "c", "info", 0, false, "/a", "/app/a",
        none, false, ⟨"/a", none, ⟨some "/a", some "created",
          none, none, false⟩⟩⟩] "n1" "u").1.mpr
      ⟨⟨"n1", "u", "created", "t", "c", "info", 0, false, "/a", "/app/a",
        none, false, ⟨"/a", none, ⟨some "/a", some "created",
          none, none, false⟩⟩⟩, by decide, rfl, rfl⟩
  · exact (mark_as_read_spec
      [⟨"n1", "u", "created", "t", "c", "info", 0, false, "/a", "/app/a",
        none, false, ⟨"/a", none, ⟨some "/a", some "created",
          none, none, false⟩⟩⟩] "n1" "v").2.1 (by decide)

end NotifSys
